import Mathlib

/-!
Verification development for the Kaleidoscope-style language front end in
src/main.cpp: a character-level tokenizer (gettok) and a recursive-descent,
precedence-climbing expression parser producing an abstract syntax tree.

The embedding is character-faithful: the C global state (the read cursor into
the input, the last unconsumed character, identifier_str, num_val) becomes an
explicit LexState value; getchar on an exhausted stream returns -1 (EOF), and
characters are represented by their code points as integers, exactly as the C
code stores them in an int.  Floating point values of numeric literals are
represented as exact rationals; on the digits-and-dots strings produced by the
tokenizer the C strtod conversion is exact decimal arithmetic, modelled by
strtodModel below.

gettok in the C source restarts itself after a comment that ends at a newline.
Here one pass of the function body is gettokStep, and gettok iterates it; the
iteration is realized with a structural bound of one more than the length of
the remaining input, which lemma gettokAux_irrel proves is never exhausted, and
lemma gettok_unfold recovers the literal self-recursion equation of the C code.
-/

namespace MainCpp

/-! ## Character classification (C ctype on ASCII, with -1 for EOF) -/

/-- C isspace for the default locale, on an int that is a character code or
-1 for EOF.  EOF is not a space. -/
def isspaceI (c : Int) : Bool :=
  c = 32 || c = 9 || c = 10 || c = 11 || c = 12 || c = 13

/-- C isalpha on a character code or -1 for EOF. -/
def isalphaI (c : Int) : Bool :=
  (65 ≤ c && c ≤ 90) || (97 ≤ c && c ≤ 122)

/-- C isdigit on a character code or -1 for EOF. -/
def isdigitI (c : Int) : Bool :=
  48 ≤ c && c ≤ 57

/-- C isalnum on a character code or -1 for EOF. -/
def isalnumI (c : Int) : Bool :=
  isalphaI c || isdigitI c

/-! ## Token tag values (enum Token in main.cpp; nonnegative results are
plain character codes) -/

def tokenEof : Int := -1

def tokenDef : Int := -2

/-- The token_extern tag from main.cpp. -/
def tokenExternKw : Int := -3

def tokenIdentifier : Int := -4

def tokenNumber : Int := -5

/-! ## Tokenizer state and input primitives -/

/-- The tokenizer state of main.cpp made explicit: the remaining character
stream, the static last_char of gettok (a character code, or -1 once getchar
has returned EOF), and the two payload globals identifier_str and num_val. -/
structure LexState where
  input : List Char
  lastChar : Int
  identifierStr : String
  numVal : Rat
deriving DecidableEq

/-- getchar on the explicit stream: pops the next character code, or returns
-1 (EOF) on an exhausted stream. -/
def getchar : List Char → Int × List Char
  | [] => (-1, [])
  | c :: rest => ((c.toNat : Int), rest)

/-- The whitespace-skipping loop of gettok: while isspace last_char, replace
last_char by getchar.  Returns the final last_char and remaining stream. -/
def skipSpaces (c : Int) : List Char → Int × List Char
  | [] => if isspaceI c then (-1, []) else (c, [])
  | d :: rest =>
    if isspaceI c then skipSpaces (d.toNat : Int) rest else (c, d :: rest)

/-- The identifier loop of gettok: reads characters while isalnum holds,
returning the consumed alphanumeric tail, the first unconsumed character
(the new last_char) and the remaining stream. -/
def readIdent : List Char → List Char × Int × List Char
  | [] => ([], -1, [])
  | d :: rest =>
    if isalnumI (d.toNat : Int) then
      let r := readIdent rest
      (d :: r.1, r.2.1, r.2.2)
    else ([], (d.toNat : Int), rest)

/-- The number loop of gettok: a do-while that collects the current character
code c and every following digit or dot, returning the collected codes, the
new last_char and the remaining stream. -/
def readNum (c : Int) : List Char → List Int × Int × List Char
  | [] => ([c], -1, [])
  | d :: rest =>
    if isdigitI (d.toNat : Int) || (d.toNat : Int) = 46 then
      let r := readNum (d.toNat : Int) rest
      (c :: r.1, r.2.1, r.2.2)
    else ([c], (d.toNat : Int), rest)

/-- The comment loop of gettok: a do-while reading characters until EOF, a
newline (10) or a carriage return (13); returns the stopping character code
(-1 for EOF) and the remaining stream. -/
def skipComment : List Char → Int × List Char
  | [] => (-1, [])
  | d :: rest =>
    if (d.toNat : Int) = 10 || (d.toNat : Int) = 13 then ((d.toNat : Int), rest)
    else skipComment rest

/-- Decimal value of a list of digit codes, most significant first. -/
def digitsVal (l : List Int) : Nat :=
  l.foldl (fun a c => 10 * a + (c - 48).toNat) 0

/-- C strtod restricted to the strings the tokenizer feeds it, which match
the regular expression of digits and dots.  strtod converts the longest
valid prefix: an integer part, then at most one dot and a fraction part; if
it finds neither an integer digit nor a fraction digit it performs no
conversion and returns 0. -/
def strtodModel (cs : List Int) : Rat :=
  let isdig : Int → Bool := fun c => 48 ≤ c && c ≤ 57
  let ip := cs.takeWhile isdig
  let rest := cs.dropWhile isdig
  match rest with
  | 46 :: rest2 =>
    let fp := rest2.takeWhile isdig
    if ip = [] && fp = [] then 0
    else (digitsVal ip : Rat) + (digitsVal fp : Rat) / ((10 : Rat) ^ fp.length)
  | _ => (digitsVal ip : Rat)

/-- One pass of the body of gettok from main.cpp.  Sum.inl is a produced
token with the resulting state; Sum.inr is the state from which the C code
restarts gettok after discarding a comment that ended at a newline. -/
def gettokStep (s : LexState) : (Int × LexState) ⊕ LexState :=
  let sp := skipSpaces s.lastChar s.input
  let c := sp.1
  let inp := sp.2
  if isalphaI c then
    let r := readIdent inp
    let idStr : String := String.mk (Char.ofNat c.toNat :: r.1)
    let s' : LexState := ⟨r.2.2, r.2.1, idStr, s.numVal⟩
    if idStr = "def" then .inl (tokenDef, s')
    else if idStr = "extern" then .inl (tokenExternKw, s')
    else .inl (tokenIdentifier, s')
  else if isdigitI c || c = 46 then
    let r := readNum c inp
    .inl (tokenNumber, ⟨r.2.2, r.2.1, s.identifierStr, strtodModel r.1⟩)
  else if c = 35 then
    let r := skipComment inp
    if r.1 ≠ -1 then .inr ⟨r.2, r.1, s.identifierStr, s.numVal⟩
    else
      let g := getchar r.2
      .inl (r.1, ⟨g.2, g.1, s.identifierStr, s.numVal⟩)
  else if c = -1 then .inl (tokenEof, ⟨inp, -1, s.identifierStr, s.numVal⟩)
  else
    let g := getchar inp
    .inl (c, ⟨g.2, g.1, s.identifierStr, s.numVal⟩)

/-! ### Termination facts for the comment restart -/

theorem skipSpaces_length (c : Int) (l : List Char) :
    (skipSpaces c l).2.length ≤ l.length := by
  induction l generalizing c with
  | nil => by_cases h : isspaceI c <;> simp [skipSpaces, h]
  | cons d rest ih =>
    by_cases h : isspaceI c
    · simpa [skipSpaces, h] using (ih (d.toNat : Int)).trans (by simp)
    · simp [skipSpaces, h]

theorem skipComment_length_lt (l : List Char) (h : (skipComment l).1 ≠ -1) :
    (skipComment l).2.length < l.length := by
  induction l with
  | nil => simp [skipComment] at h
  | cons d rest ih =>
    by_cases hd : ((d.toNat : Int) = 10 || (d.toNat : Int) = 13) = true
    · simp [skipComment, hd]
    · simp only [skipComment, hd, if_neg] at h ⊢
      simp only [Bool.not_eq_true] at hd
      rw [if_neg (by simp [hd])] at h ⊢
      exact (ih h).trans (by simp)

/-- A comment restart strictly shortens the remaining input: together with
gettokAux_irrel this is the termination argument for the recursion of gettok
after a comment. -/
theorem gettokStep_inr_length {s : LexState} {s' : LexState}
    (h : gettokStep s = .inr s') : s'.input.length < s.input.length := by
  unfold gettokStep at h
  dsimp only at h
  split at h
  · split at h
    · exact absurd h (by simp)
    · split at h <;> exact absurd h (by simp)
  · split at h
    · exact absurd h (by simp)
    · split at h
      · split at h
        · rename_i hne
          injection h with h2
          subst h2
          exact lt_of_lt_of_le (skipComment_length_lt _ hne) (skipSpaces_length _ _)
        · exact absurd h (by simp)
      · split at h <;> exact absurd h (by simp)

/-- Iteration of gettokStep with an explicit structural bound.  The bound is
padding only: gettokAux_irrel shows any bound above the input length gives
the same result, so the padding case is never reached. -/
def gettokAux : Nat → LexState → Int × LexState
  | 0, s => (tokenEof, s)
  | n + 1, s =>
    match gettokStep s with
    | .inl r => r
    | .inr s' => gettokAux n s'

/-- gettok from main.cpp: return the next token from the stream.  A
nonnegative return value is a plain character token; negative values are the
token tags above.  Payload globals are updated exactly when the C code
updates them. -/
def gettok (s : LexState) : Int × LexState :=
  gettokAux (s.input.length + 1) s

theorem gettokAux_irrel (n : Nat) :
    ∀ (m : Nat) (s : LexState), s.input.length < n → s.input.length < m →
      gettokAux n s = gettokAux m s := by
  induction n with
  | zero => intro m s h; omega
  | succ n ih =>
    intro m s h hm
    match m, hm with
    | m + 1, _ =>
      show (match gettokStep s with
            | .inl r => r
            | .inr s' => gettokAux n s') =
          (match gettokStep s with
            | .inl r => r
            | .inr s' => gettokAux m s')
      cases hstep : gettokStep s with
      | inl r => rfl
      | inr s' =>
        have hlt := gettokStep_inr_length hstep
        exact ih m s' (by omega) (by omega)

/-- The self-recursion equation of gettok exactly as written in main.cpp:
one pass of the body, restarting the whole function after a discarded
comment. -/
theorem gettok_unfold (s : LexState) :
    gettok s = (match gettokStep s with
      | .inl r => r
      | .inr s' => gettok s') := by
  show (match gettokStep s with
        | .inl r => r
        | .inr s' => gettokAux s.input.length s') =
      (match gettokStep s with
        | .inl r => r
        | .inr s' => gettok s')
  cases hstep : gettokStep s with
  | inl r => rfl
  | inr s' =>
    have hlt := gettokStep_inr_length hstep
    exact gettokAux_irrel _ _ s' (by omega) (by omega)

/-- gettok when one pass of the body produces a token. -/
theorem gettok_inl {s : LexState} {r : Int × LexState}
    (h : gettokStep s = .inl r) : gettok s = r := by
  rw [gettok_unfold, h]

/-- gettok when one pass of the body discards a comment and restarts. -/
theorem gettok_inr {s s' : LexState}
    (h : gettokStep s = .inr s') : gettok s = gettok s' := by
  rw [gettok_unfold, h]

/-- The fresh tokenizer state on a given character stream: last_char starts
as a space, identifier_str empty, num_val zero. -/
def initLexState (l : List Char) : LexState := ⟨l, 32, "", 0⟩

/-- The n-th call of gettok (zero-based), threading the state. -/
def gettokN : Nat → LexState → Int × LexState
  | 0, s => gettok s
  | n + 1, s => gettokN n (gettok s).2

/-! ## Abstract syntax tree (the ExprAST class hierarchy of main.cpp as a
closed sum).  BinaryExpr stores the operator as the int value of the
character, exactly as the parser reads it from curr_token. -/

inductive ExprAST where
  | NumberExpr (val : Rat)
  | VariableExpr (name : String)
  | BinaryExpr (op : Int) (lhs rhs : ExprAST)
  | CallExpr (callee : String) (args : List ExprAST)

/-- PrototypeAST from main.cpp: function name and parameter names. -/
structure PrototypeAST where
  name : String
  args : List String
deriving DecidableEq

/-- FunctionAST from main.cpp: a prototype together with a body expression. -/
structure FunctionAST where
  proto : PrototypeAST
  body : ExprAST

/-! ## Parser state

The parser of main.cpp keeps one token of lookahead in the global curr_token
and advances it with getNextToken, which calls gettok.  Failure (nullptr
from LogError) is Option.none; no partial tree accompanies a failure. -/

structure ParserState where
  lex : LexState
  currToken : Int

/-- getNextToken from main.cpp: curr_token = gettok(). -/
def getNextToken (ps : ParserState) : ParserState :=
  let r := gettok ps.lex
  ⟨r.2, r.1⟩

/-- ParseNumberExpr from main.cpp: make a NumberExpr from num_val and eat
the number token. -/
def ParseNumberExpr (ps : ParserState) : ExprAST × ParserState :=
  (.NumberExpr ps.lex.numVal, getNextToken ps)

/-- GetTokenPrecedence from main.cpp: -1 unless curr_token is an ascii
character whose precedence table entry is strictly positive.  The table
lookup prec models BinopPrecedence with the operator-bracket default of 0
for absent keys; it is the configuration supplied by the driver. -/
def GetTokenPrecedence (prec : Int → Int) (t : Int) : Int :=
  if ¬ (0 ≤ t ∧ t ≤ 127) then -1
  else if prec t ≤ 0 then -1
  else prec t

/-- The precedence table installed by main: 60 is the less-than sign, 43
plus, 45 minus, 42 star. -/
def defaultPrec : Int → Int := fun c =>
  if c = 60 then 100
  else if c = 43 then 200
  else if c = 45 then 200
  else if c = 42 then 300
  else 0

/-! The mutually recursive parsing routines.  The C functions recurse
through one another while the token stream advances; here the call depth is
metered by an explicit fuel argument, decremented at every call, and each
claim is stated with fuel amply above the depth its input needs.  Exhausted
fuel yields none. -/

mutual

/-- ParseExpression from main.cpp: a primary followed by the binary operator
tail starting at minimum precedence 0. -/
def ParseExpression (prec : Int → Int) : Nat → ParserState → Option (ExprAST × ParserState)
  | 0, _ => none
  | fuel + 1, ps =>
    match ParsePrimary prec fuel ps with
    | none => none
    | some (lhs, ps1) => ParseBinOpRHS prec fuel 0 lhs ps1

/-- ParsePrimary from main.cpp: dispatch on curr_token to identifier,
number or parenthesis, anything else is an error. -/
def ParsePrimary (prec : Int → Int) : Nat → ParserState → Option (ExprAST × ParserState)
  | 0, _ => none
  | fuel + 1, ps =>
    if ps.currToken = tokenIdentifier then ParseIdentifierExpr prec fuel ps
    else if ps.currToken = tokenNumber then some (ParseNumberExpr ps)
    else if ps.currToken = 40 then ParseParenExpr prec fuel ps
    else none

/-- ParseParenExpr from main.cpp: eat the open paren (40), parse an
expression, require and eat the close paren (41), and yield the inner
expression itself. -/
def ParseParenExpr (prec : Int → Int) : Nat → ParserState → Option (ExprAST × ParserState)
  | 0, _ => none
  | fuel + 1, ps =>
    let ps1 := getNextToken ps
    match ParseExpression prec fuel ps1 with
    | none => none
    | some (v, ps2) =>
      if ps2.currToken ≠ 41 then none
      else some (v, getNextToken ps2)

/-- ParseIdentifierExpr from main.cpp: a lone identifier is a VariableExpr;
an identifier followed by an open paren is a call with comma-separated
argument expressions. -/
def ParseIdentifierExpr (prec : Int → Int) : Nat → ParserState → Option (ExprAST × ParserState)
  | 0, _ => none
  | fuel + 1, ps =>
    let idName := ps.lex.identifierStr
    let ps1 := getNextToken ps
    if ps1.currToken ≠ 40 then some (.VariableExpr idName, ps1)
    else
      let ps2 := getNextToken ps1
      if ps2.currToken = 41 then some (.CallExpr idName [], getNextToken ps2)
      else
        match ParseCallArgs prec fuel [] ps2 with
        | none => none
        | some (args, ps3) => some (.CallExpr idName args, getNextToken ps3)

/-- The argument loop inside ParseIdentifierExpr from main.cpp: parse an
expression, stop before a close paren (41), demand a comma (44) otherwise,
eat it and continue. -/
def ParseCallArgs (prec : Int → Int) : Nat → List ExprAST → ParserState → Option (List ExprAST × ParserState)
  | 0, _, _ => none
  | fuel + 1, acc, ps =>
    match ParseExpression prec fuel ps with
    | none => none
    | some (arg, ps1) =>
      if ps1.currToken = 41 then some (acc ++ [arg], ps1)
      else if ps1.currToken ≠ 44 then none
      else ParseCallArgs prec fuel (acc ++ [arg]) (getNextToken ps1)

/-- ParseBinOpRHS from main.cpp, the precedence climbing loop: while the
current token is a binary operator binding at least as tightly as
exprPrec, eat it, parse a primary right-hand side, let a strictly
tighter-binding next operator absorb that right-hand side first, then fold
into a BinaryExpr and continue with the merged left-hand side. -/
def ParseBinOpRHS (prec : Int → Int) : Nat → Int → ExprAST → ParserState → Option (ExprAST × ParserState)
  | 0, _, _, _ => none
  | fuel + 1, exprPrec, lhs, ps =>
    let tokPrec := GetTokenPrecedence prec ps.currToken
    if tokPrec < exprPrec then some (lhs, ps)
    else
      let binOp := ps.currToken
      let ps1 := getNextToken ps
      match ParsePrimary prec fuel ps1 with
      | none => none
      | some (rhs, ps2) =>
        let nextPrec := GetTokenPrecedence prec ps2.currToken
        if tokPrec < nextPrec then
          match ParseBinOpRHS prec fuel (tokPrec + 1) rhs ps2 with
          | none => none
          | some (rhs2, ps3) => ParseBinOpRHS prec fuel exprPrec (.BinaryExpr binOp lhs rhs2) ps3
        else ParseBinOpRHS prec fuel exprPrec (.BinaryExpr binOp lhs rhs) ps2

end

/-- The parameter-name loop of ParsePrototype from main.cpp: while
getNextToken yields an identifier, push identifier_str. -/
def ParseProtoArgs : Nat → List String → ParserState → Option (List String × ParserState)
  | 0, _, _ => none
  | fuel + 1, acc, ps =>
    let ps1 := getNextToken ps
    if ps1.currToken = tokenIdentifier then ParseProtoArgs fuel (acc ++ [ps1.lex.identifierStr]) ps1
    else some (acc, ps1)

/-- ParsePrototype from main.cpp: an identifier, an open paren, zero or more
identifier parameter names with no separators, and a close paren. -/
def ParsePrototype (fuel : Nat) (ps : ParserState) : Option (PrototypeAST × ParserState) :=
  if ps.currToken ≠ tokenIdentifier then none
  else
    let funcName := ps.lex.identifierStr
    let ps1 := getNextToken ps
    if ps1.currToken ≠ 40 then none
    else
      match ParseProtoArgs fuel [] ps1 with
      | none => none
      | some (argNames, ps2) =>
        if ps2.currToken ≠ 41 then none
        else some (⟨funcName, argNames⟩, getNextToken ps2)

/-- ParseDefinition from main.cpp: eat the def keyword, parse a prototype,
parse a body expression. -/
def ParseDefinition (prec : Int → Int) (fuel : Nat) (ps : ParserState) :
    Option (FunctionAST × ParserState) :=
  let ps1 := getNextToken ps
  match ParsePrototype fuel ps1 with
  | none => none
  | some (proto, ps2) =>
    match ParseExpression prec fuel ps2 with
    | none => none
    | some (e, ps3) => some (⟨proto, e⟩, ps3)

/-- ParseTopLevelExpr from main.cpp: parse an expression and wrap it in a
FunctionAST with the anonymous sentinel prototype. -/
def ParseTopLevelExpr (prec : Int → Int) (fuel : Nat) (ps : ParserState) :
    Option (FunctionAST × ParserState) :=
  match ParseExpression prec fuel ps with
  | none => none
  | some (e, ps1) => some (⟨⟨"", []⟩, e⟩, ps1)

/-- The parser state after main primes the first token on a fresh stream. -/
def initParserState (l : List Char) : ParserState :=
  getNextToken ⟨initLexState l, 0⟩

/-! ## Symbolic stepping lemmas for the tokenizer -/

theorem skipSpaces_not_space {c : Int} (h : isspaceI c = false) (l : List Char) :
    skipSpaces c l = (c, l) := by
  cases l <;> simp [skipSpaces, h]

theorem skipSpaces_space_cons {c : Int} (h : isspaceI c = true) (d : Char) (l : List Char) :
    skipSpaces c (d :: l) = skipSpaces (d.toNat : Int) l := by
  simp [skipSpaces, h]

theorem skipComment_no_newline {l : List Char}
    (h : ∀ c ∈ l, (c.toNat : Int) ≠ 10 ∧ (c.toNat : Int) ≠ 13) :
    skipComment l = (-1, []) := by
  induction l with
  | nil => rfl
  | cons d rest ih =>
    have hd := h d (by simp)
    rw [skipComment, if_neg (by simp [hd.1, hd.2])]
    exact ih fun c hc => h c (by simp [hc])

/-- One gettok pass on a state whose post-whitespace character is an
ordinary single character: the character code itself is the token and one
further character is read ahead. -/
theorem gettokStep_of_char {s : LexState} {c : Int} {inp : List Char}
    (hsp : skipSpaces s.lastChar s.input = (c, inp))
    (h1 : isalphaI c = false) (h2 : isdigitI c = false) (h3 : c ≠ 46)
    (h4 : c ≠ 35) (h5 : c ≠ -1) :
    gettokStep s = .inl (c, ⟨(getchar inp).2, (getchar inp).1, s.identifierStr, s.numVal⟩) := by
  unfold gettokStep
  rw [hsp]
  simp [h1, h2, h3, h4, h5]

/-- One gettok pass on a state whose post-whitespace character starts a
number: the number loop runs and num_val receives the strtod value. -/
theorem gettokStep_of_num {s : LexState} {c : Int} {inp : List Char}
    (hsp : skipSpaces s.lastChar s.input = (c, inp))
    (h1 : isalphaI c = false) (h2 : isdigitI c || c = 46) :
    gettokStep s = .inl (tokenNumber,
      ⟨(readNum c inp).2.2, (readNum c inp).2.1, s.identifierStr, strtodModel (readNum c inp).1⟩) := by
  unfold gettokStep
  rw [hsp]
  simp only [h1, Bool.false_eq_true, if_false]
  rw [if_pos (by simpa using h2)]

/-- One gettok pass on a state whose post-whitespace character is EOF. -/
theorem gettokStep_of_eof {s : LexState} {inp : List Char}
    (hsp : skipSpaces s.lastChar s.input = (-1, inp)) :
    gettokStep s = .inl (tokenEof, ⟨inp, -1, s.identifierStr, s.numVal⟩) := by
  unfold gettokStep
  rw [hsp]
  simp [isalphaI, isdigitI]

/-! ## Trivial input: only whitespace and comments -/

/-- Recognizer for inputs consisting solely of whitespace and comments.  The
flag records whether the scan is inside a comment; a comment is a hash
character (35) followed by arbitrary characters through the next newline
(10) or carriage return (13), or through end of input. -/
def trivialFrom : Bool → List Char → Bool
  | _, [] => true
  | false, c :: rest =>
    if isspaceI (c.toNat : Int) then trivialFrom false rest
    else if (c.toNat : Int) = 35 then trivialFrom true rest
    else false
  | true, c :: rest =>
    if (c.toNat : Int) = 10 || (c.toNat : Int) = 13 then trivialFrom false rest
    else trivialFrom true rest

theorem skipSpaces_trivial (l : List Char) : ∀ c : Int, isspaceI c = true →
    trivialFrom false l = true →
    skipSpaces c l = (-1, []) ∨
      ∃ rest, skipSpaces c l = (35, rest) ∧ trivialFrom true rest = true ∧
        rest.length < l.length := by
  induction l with
  | nil => intro c hc _; left; simp [skipSpaces, hc]
  | cons d rest ih =>
    intro c hc ht
    rw [skipSpaces_space_cons hc]
    by_cases hd : isspaceI (d.toNat : Int) = true
    · rw [trivialFrom, if_pos hd] at ht
      rcases ih (d.toNat : Int) hd ht with h | ⟨rest', h1, h2, h3⟩
      · left; exact h
      · right; exact ⟨rest', h1, h2, by simpa using h3.trans (Nat.lt_succ_self _)⟩
    · rw [trivialFrom, if_neg hd] at ht
      by_cases hh : (d.toNat : Int) = 35
      · rw [if_pos hh] at ht
        right
        refine ⟨rest, ?_, ht, by simp⟩
        rw [skipSpaces_not_space (by simp [hd]), hh]
      · rw [if_neg hh] at ht
        exact absurd ht (by simp)

theorem skipComment_trivial (l : List Char) : trivialFrom true l = true →
    skipComment l = (-1, []) ∨
      ∃ d rest, skipComment l = (d, rest) ∧ isspaceI d = true ∧
        trivialFrom false rest = true ∧ rest.length < l.length := by
  induction l with
  | nil => intro _; left; rfl
  | cons c rest ih =>
    intro ht
    by_cases hc : ((c.toNat : Int) = 10 || (c.toNat : Int) = 13) = true
    · rw [trivialFrom, if_pos hc] at ht
      right
      refine ⟨(c.toNat : Int), rest, ?_, ?_, ht, by simp⟩
      · rw [skipComment, if_pos hc]
      · rcases Bool.or_eq_true_iff.mp hc with h | h <;>
          simp_all [isspaceI]
    · rw [trivialFrom, if_neg hc] at ht
      rw [skipComment, if_neg hc]
      rcases ih ht with h | ⟨d, rest', h1, h2, h3, h4⟩
      · left; exact h
      · right; exact ⟨d, rest', h1, h2, h3, by simpa using h4.trans (Nat.lt_succ_self _)⟩

theorem isspaceI_ne_neg_one {d : Int} (h : isspaceI d = true) : d ≠ -1 := by
  unfold isspaceI at h
  simp only [Bool.or_eq_true, decide_eq_true_eq] at h
  omega

/-- One gettok pass when the post-whitespace character is a hash and the
comment runs to end of input: the fall-through returns EOF as the token. -/
theorem gettokStep_comment_eof {s : LexState} {rest : List Char}
    (hsp : skipSpaces s.lastChar s.input = (35, rest))
    (hsc : skipComment rest = (-1, [])) :
    gettokStep s = .inl (tokenEof, ⟨[], -1, s.identifierStr, s.numVal⟩) := by
  unfold gettokStep
  rw [hsp]
  dsimp only
  rw [hsc]
  norm_num [isalphaI, isdigitI, getchar, tokenEof]

/-- One gettok pass when the post-whitespace character is a hash and the
comment stops at a newline: the function restarts from that newline. -/
theorem gettokStep_comment_restart {s : LexState} {rest rest' : List Char} {d : Int}
    (hsp : skipSpaces s.lastChar s.input = (35, rest))
    (hsc : skipComment rest = (d, rest')) (hd : d ≠ -1) :
    gettokStep s = .inr ⟨rest', d, s.identifierStr, s.numVal⟩ := by
  unfold gettokStep
  rw [hsp]
  dsimp only
  rw [hsc]
  norm_num [isalphaI, isdigitI, hd]

/-- gettok on the fully drained state keeps returning the EOF token without
consuming anything (the C code does not eat the EOF). -/
theorem gettok_eof_state (id : String) (nv : Rat) :
    gettok ⟨[], -1, id, nv⟩ = (tokenEof, ⟨[], -1, id, nv⟩) :=
  gettok_inl (gettokStep_of_eof
    (skipSpaces_not_space (show isspaceI (-1 : Int) = false from by decide) []))

/-- On a trivial input (only whitespace and comments), gettok started with
any whitespace last_char drains the input and returns the EOF token,
touching no payload global. -/
theorem gettok_trivial (l : List Char) (c : Int) (id : String) (nv : Rat)
    (hc : isspaceI c = true) (ht : trivialFrom false l = true) :
    gettok ⟨l, c, id, nv⟩ = (tokenEof, ⟨[], -1, id, nv⟩) := by
  rcases skipSpaces_trivial l c hc ht with h1 | ⟨rest, h1, h2, h3⟩
  · rw [gettok_inl (gettokStep_of_eof h1)]
  · rcases skipComment_trivial rest h2 with h4 | ⟨d, rest', h4, h5, h6, h7⟩
    · rw [gettok_inl (gettokStep_comment_eof h1 h4)]
    · rw [gettok_inr (gettokStep_comment_restart h1 h4 (isspaceI_ne_neg_one h5))]
      exact gettok_trivial rest' d id nv h5 h6
termination_by l.length
decreasing_by omega

theorem gettokN_eof_state (id : String) (nv : Rat) :
    ∀ n, gettokN n ⟨[], -1, id, nv⟩ = (tokenEof, ⟨[], -1, id, nv⟩) := by
  intro n
  induction n with
  | zero => exact gettok_eof_state id nv
  | succ n ih => rw [gettokN, gettok_eof_state]; exact ih

/-! ## Observable token sequences and payload independence -/

/-- What a consumer of gettok observes for one call: the returned value,
refined by the payload global that the negative tags direct it to read
(identifier_str for token_identifier, num_val for token_number). -/
inductive ObsTok where
  | code (t : Int)
  | ident (name : String)
  | num (v : Rat)
deriving DecidableEq

def observeTok (t : Int) (s : LexState) : ObsTok :=
  if t = tokenIdentifier then .ident s.identifierStr
  else if t = tokenNumber then .num s.numVal
  else .code t

/-- The observable token sequence of the first n calls of gettok. -/
def obsStream : Nat → LexState → List ObsTok
  | 0, _ => []
  | n + 1, s => observeTok (gettok s).1 (gettok s).2 :: obsStream n (gettok s).2

/-- One gettok pass on a state whose post-whitespace character is
alphabetic: the keyword test decides the tag and identifier_str receives
the accumulated word. -/
theorem gettokStep_of_alpha {s : LexState} {c : Int} {inp : List Char}
    (hsp : skipSpaces s.lastChar s.input = (c, inp)) (h : isalphaI c = true) :
    gettokStep s = .inl
      ((if String.mk (Char.ofNat c.toNat :: (readIdent inp).1) = "def" then tokenDef
        else if String.mk (Char.ofNat c.toNat :: (readIdent inp).1) = "extern" then tokenExternKw
        else tokenIdentifier),
       ⟨(readIdent inp).2.2, (readIdent inp).2.1,
        String.mk (Char.ofNat c.toNat :: (readIdent inp).1), s.numVal⟩) := by
  unfold gettokStep
  rw [hsp]
  dsimp only
  rw [if_pos h]
  split_ifs <;> rfl

theorem skipSpaces_fst_ge {c : Int} (hc : -1 ≤ c) (l : List Char) :
    -1 ≤ (skipSpaces c l).1 := by
  induction l generalizing c with
  | nil => by_cases h : isspaceI c <;> simp [skipSpaces, h, hc]
  | cons d rest ih =>
    by_cases h : isspaceI c
    · rw [skipSpaces_space_cons h]
      exact ih (by omega)
    · simp [skipSpaces, h, hc]

theorem readIdent_lastChar_ge (l : List Char) : -1 ≤ (readIdent l).2.1 := by
  induction l with
  | nil => simp [readIdent]
  | cons d rest ih =>
    by_cases h : isalnumI (d.toNat : Int) <;> simp [readIdent, h, ih] <;> omega

theorem readNum_lastChar_ge (c : Int) (l : List Char) : -1 ≤ (readNum c l).2.1 := by
  induction l generalizing c with
  | nil => simp [readNum]
  | cons d rest ih =>
    by_cases h : (isdigitI (d.toNat : Int) || (d.toNat : Int) = 46) = true <;>
      simp [readNum, h, ih] <;> omega

theorem skipComment_fst_ge (l : List Char) : -1 ≤ (skipComment l).1 := by
  induction l with
  | nil => simp [skipComment]
  | cons d rest ih =>
    by_cases h : ((d.toNat : Int) = 10 || (d.toNat : Int) = 13) = true <;>
      simp [skipComment, h, ih] <;> omega

theorem getchar_fst_ge (l : List Char) : -1 ≤ (getchar l).1 := by
  cases l <;> simp [getchar] <;> omega

theorem skipComment_fst_eof_nil (l : List Char) (h : (skipComment l).1 = -1) :
    skipComment l = (-1, []) := by
  induction l with
  | nil => rfl
  | cons d rest ih =>
    by_cases hd : ((d.toNat : Int) = 10 || (d.toNat : Int) = 13) = true
    · rw [skipComment, if_pos hd] at h ⊢
      exfalso
      rcases Bool.or_eq_true_iff.mp hd with h' | h' <;>
        simp only [decide_eq_true_eq] at h' <;> omega
    · rw [skipComment, if_neg hd] at h ⊢
      exact ih h

/-- The result of one gettok call depends on the payload globals only
through fields the call itself wrote: starting from the same remaining
input and last_char, two states with different identifier_str and num_val
residues produce the same token value, the same new input and last_char,
the same observation, and a last_char that is again a character code or
EOF. -/
theorem gettok_payload_indep (l : List Char) (c : Int) (hc : -1 ≤ c)
    (id1 id2 : String) (nv1 nv2 : Rat) :
    (gettok ⟨l, c, id1, nv1⟩).1 = (gettok ⟨l, c, id2, nv2⟩).1 ∧
    (gettok ⟨l, c, id1, nv1⟩).2.input = (gettok ⟨l, c, id2, nv2⟩).2.input ∧
    (gettok ⟨l, c, id1, nv1⟩).2.lastChar = (gettok ⟨l, c, id2, nv2⟩).2.lastChar ∧
    -1 ≤ (gettok ⟨l, c, id1, nv1⟩).2.lastChar ∧
    observeTok (gettok ⟨l, c, id1, nv1⟩).1 (gettok ⟨l, c, id1, nv1⟩).2 =
      observeTok (gettok ⟨l, c, id2, nv2⟩).1 (gettok ⟨l, c, id2, nv2⟩).2 := by
  rcases hsp : skipSpaces c l with ⟨cc, inp⟩
  have hcc : -1 ≤ cc := by
    have := skipSpaces_fst_ge hc l
    rw [hsp] at this
    exact this
  have hlen1 : inp.length ≤ l.length := by
    have := skipSpaces_length c l
    rw [hsp] at this
    exact this
  by_cases h1 : isalphaI cc = true
  · have e1 := gettokStep_of_alpha (s := ⟨l, c, id1, nv1⟩) hsp h1
    have e2 := gettokStep_of_alpha (s := ⟨l, c, id2, nv2⟩) hsp h1
    rw [gettok_inl e1, gettok_inl e2]
    refine ⟨rfl, rfl, rfl, readIdent_lastChar_ge inp, ?_⟩
    simp only [observeTok, tokenDef, tokenExternKw, tokenIdentifier, tokenNumber]
    split_ifs <;> simp_all
  · by_cases h2 : (isdigitI cc || cc = 46) = true
    · have h1f : isalphaI cc = false := by simpa using h1
      have e1 := gettokStep_of_num (s := ⟨l, c, id1, nv1⟩) hsp h1f h2
      have e2 := gettokStep_of_num (s := ⟨l, c, id2, nv2⟩) hsp h1f h2
      rw [gettok_inl e1, gettok_inl e2]
      refine ⟨rfl, rfl, rfl, readNum_lastChar_ge cc inp, ?_⟩
      simp [observeTok, tokenNumber, tokenIdentifier]
    · by_cases h3 : cc = 35
      · subst h3
        rcases hsc : skipComment inp with ⟨d, rest'⟩
        by_cases hd : d = -1
        · subst hd
          have hnil : skipComment inp = (-1, []) := by
            apply skipComment_fst_eof_nil
            rw [hsc]
          have e1 := gettokStep_comment_eof (s := ⟨l, c, id1, nv1⟩) hsp hnil
          have e2 := gettokStep_comment_eof (s := ⟨l, c, id2, nv2⟩) hsp hnil
          rw [gettok_inl e1, gettok_inl e2]
          refine ⟨rfl, rfl, rfl, by norm_num, ?_⟩
          simp [observeTok, tokenEof, tokenIdentifier, tokenNumber]
        · have hlen2 : rest'.length < inp.length := by
            have := skipComment_length_lt inp (by rw [hsc]; exact hd)
            rw [hsc] at this
            exact this
          have hdge : -1 ≤ d := by
            have := skipComment_fst_ge inp
            rw [hsc] at this
            exact this
          have e1 := gettokStep_comment_restart (s := ⟨l, c, id1, nv1⟩) hsp hsc hd
          have e2 := gettokStep_comment_restart (s := ⟨l, c, id2, nv2⟩) hsp hsc hd
          rw [gettok_inr e1, gettok_inr e2]
          exact gettok_payload_indep rest' d hdge id1 id2 nv1 nv2
      · by_cases h4 : cc = -1
        · subst h4
          have e1 := gettokStep_of_eof (s := ⟨l, c, id1, nv1⟩) hsp
          have e2 := gettokStep_of_eof (s := ⟨l, c, id2, nv2⟩) hsp
          rw [gettok_inl e1, gettok_inl e2]
          refine ⟨rfl, rfl, rfl, by norm_num, ?_⟩
          simp [observeTok, tokenEof, tokenIdentifier, tokenNumber]
        · have h1f : isalphaI cc = false := by simpa using h1
          have h2' : isdigitI cc = false ∧ ¬cc = 46 := by simpa using h2
          have h2a : isdigitI cc = false := h2'.1
          have h2b : cc ≠ 46 := h2'.2
          have e1 := gettokStep_of_char (s := ⟨l, c, id1, nv1⟩) hsp h1f h2a h2b h3 h4
          have e2 := gettokStep_of_char (s := ⟨l, c, id2, nv2⟩) hsp h1f h2a h2b h3 h4
          rw [gettok_inl e1, gettok_inl e2]
          refine ⟨rfl, rfl, rfl, getchar_fst_ge inp, ?_⟩
          have hne1 : cc ≠ tokenIdentifier := by
            simp only [tokenIdentifier]
            omega
          have hne2 : cc ≠ tokenNumber := by
            simp only [tokenNumber]
            omega
          simp [observeTok, hne1, hne2]
termination_by l.length
decreasing_by omega

theorem obsStream_payload_indep (n : Nat) : ∀ (l : List Char) (c : Int), -1 ≤ c →
    ∀ (id1 id2 : String) (nv1 nv2 : Rat),
      obsStream n ⟨l, c, id1, nv1⟩ = obsStream n ⟨l, c, id2, nv2⟩ := by
  induction n with
  | zero => intros; rfl
  | succ n ih =>
    intro l c hc id1 id2 nv1 nv2
    obtain ⟨hfst, hinp, hlast, hge, hobs⟩ := gettok_payload_indep l c hc id1 id2 nv1 nv2
    rw [obsStream, obsStream, hobs]
    congr 1
    calc obsStream n (gettok ⟨l, c, id1, nv1⟩).2
        = obsStream n ⟨(gettok (⟨l, c, id1, nv1⟩ : LexState)).2.input,
            (gettok (⟨l, c, id1, nv1⟩ : LexState)).2.lastChar,
            (gettok (⟨l, c, id1, nv1⟩ : LexState)).2.identifierStr,
            (gettok (⟨l, c, id1, nv1⟩ : LexState)).2.numVal⟩ := rfl
      _ = obsStream n ⟨(gettok (⟨l, c, id2, nv2⟩ : LexState)).2.input,
            (gettok (⟨l, c, id2, nv2⟩ : LexState)).2.lastChar,
            (gettok (⟨l, c, id1, nv1⟩ : LexState)).2.identifierStr,
            (gettok (⟨l, c, id1, nv1⟩ : LexState)).2.numVal⟩ := by rw [hinp, hlast]
      _ = obsStream n ⟨(gettok (⟨l, c, id2, nv2⟩ : LexState)).2.input,
            (gettok (⟨l, c, id2, nv2⟩ : LexState)).2.lastChar,
            (gettok (⟨l, c, id2, nv2⟩ : LexState)).2.identifierStr,
            (gettok (⟨l, c, id2, nv2⟩ : LexState)).2.numVal⟩ :=
          ih _ _ (hlast ▸ hge) _ _ _ _
      _ = obsStream n (gettok ⟨l, c, id2, nv2⟩).2 := rfl

/-! ## Claims -/

/-- Claim C7: for every input consisting solely of whitespace characters and
hash comments, tokenization from the fresh state terminates (gettok is a
total function, including the restart after a comment) and every repeated
call returns the end-of-input token with nothing consumed and no payload
written: no non-trivial token is ever emitted. -/
theorem c7_trivial_input_tokenizes_to_eof (l : List Char)
    (h : trivialFrom false l = true) (n : Nat) :
    gettokN n (initLexState l) = (tokenEof, ⟨[], -1, "", 0⟩) := by
  induction n with
  | zero => exact gettok_trivial l 32 "" 0 (by decide) h
  | succ n ih =>
    rw [gettokN, show initLexState l = ⟨l, 32, "", 0⟩ from rfl,
      gettok_trivial l 32 "" 0 (by decide) h]
    exact gettokN_eof_state "" 0 n

/-- Witness for C7 on a concrete input of spaces, comments and newlines. -/
theorem c7_trivial_input_tokenizes_to_eof_witness :
    trivialFrom false "  # one\n \t \n# two".toList = true ∧
      gettokN 3 (initLexState "  # one\n \t \n# two".toList) = (tokenEof, ⟨[], -1, "", 0⟩) :=
  ⟨by decide, c7_trivial_input_tokenizes_to_eof "  # one\n \t \n# two".toList (by decide) 3⟩

/-! ## The operator registration invariant -/

mutual

/-- Every BinaryExpr operator in the tree is an ascii character code whose
precedence table entry is strictly positive. -/
def opsRegistered (prec : Int → Int) : ExprAST → Bool
  | .NumberExpr _ => true
  | .VariableExpr _ => true
  | .BinaryExpr op l r =>
    decide (0 ≤ op) && decide (op ≤ 127) && decide (0 < prec op) &&
      opsRegistered prec l && opsRegistered prec r
  | .CallExpr _ args => opsRegisteredList prec args

def opsRegisteredList (prec : Int → Int) : List ExprAST → Bool
  | [] => true
  | e :: es => opsRegistered prec e && opsRegisteredList prec es

end

theorem opsRegisteredList_append (prec : Int → Int) (a b : List ExprAST) :
    opsRegisteredList prec (a ++ b) =
      (opsRegisteredList prec a && opsRegisteredList prec b) := by
  induction a with
  | nil => simp [opsRegisteredList]
  | cons e es ih => simp [opsRegisteredList, ih, Bool.and_assoc]

theorem GetTokenPrecedence_pos {prec : Int → Int} {t : Int}
    (h1 : 0 ≤ t) (h2 : t ≤ 127) (h3 : 0 < prec t) :
    GetTokenPrecedence prec t = prec t := by
  unfold GetTokenPrecedence
  rw [if_neg (by simp [h1, h2]), if_neg (by omega)]

/-- When the precedence-climbing loop does not exit, the current token is an
ascii character with a strictly positive table entry. -/
theorem GetTokenPrecedence_ge_cases {prec : Int → Int} {t minP : Int} (hmin : 0 ≤ minP)
    (h : ¬ GetTokenPrecedence prec t < minP) :
    0 ≤ t ∧ t ≤ 127 ∧ 0 < prec t := by
  by_cases h1 : 0 ≤ t ∧ t ≤ 127
  · by_cases h3 : prec t ≤ 0
    · exfalso
      apply h
      unfold GetTokenPrecedence
      rw [if_neg (by simpa using h1), if_pos h3]
      omega
    · exact ⟨h1.1, h1.2, by omega⟩
  · exfalso
    apply h
    unfold GetTokenPrecedence
    rw [if_pos h1]
    omega

/-- The invariant, proved for all six parsing routines simultaneously by
induction on the fuel. -/
theorem parse_ops_invariant (prec : Int → Int) (fuel : Nat) :
    (∀ ps e ps1, ParseExpression prec fuel ps = some (e, ps1) →
      opsRegistered prec e = true) ∧
    (∀ ps e ps1, ParsePrimary prec fuel ps = some (e, ps1) →
      opsRegistered prec e = true) ∧
    (∀ ps e ps1, ParseParenExpr prec fuel ps = some (e, ps1) →
      opsRegistered prec e = true) ∧
    (∀ ps e ps1, ParseIdentifierExpr prec fuel ps = some (e, ps1) →
      opsRegistered prec e = true) ∧
    (∀ acc ps r ps1, opsRegisteredList prec acc = true →
      ParseCallArgs prec fuel acc ps = some (r, ps1) →
      opsRegisteredList prec r = true) ∧
    (∀ minP lhs ps e ps1, 0 ≤ minP → opsRegistered prec lhs = true →
      ParseBinOpRHS prec fuel minP lhs ps = some (e, ps1) →
      opsRegistered prec e = true) := by
  induction fuel with
  | zero =>
    refine ⟨?_, ?_, ?_, ?_, ?_, ?_⟩ <;> intros <;>
      simp_all [ParseExpression, ParsePrimary, ParseParenExpr, ParseIdentifierExpr,
        ParseCallArgs, ParseBinOpRHS]
  | succ fuel ih =>
    obtain ⟨ihE, ihP, ihPar, ihId, ihArgs, ihBin⟩ := ih
    refine ⟨?_, ?_, ?_, ?_, ?_, ?_⟩
    · intro ps e ps1 h
      rw [ParseExpression] at h
      cases hp : ParsePrimary prec fuel ps with
      | none => rw [hp] at h; exact absurd h (by simp)
      | some v =>
        obtain ⟨lhs, psa⟩ := v
        rw [hp] at h
        try dsimp only at h
        exact ihBin 0 lhs psa e ps1 le_rfl (ihP ps lhs psa hp) h
    · intro ps e ps1 h
      rw [ParsePrimary] at h
      try dsimp only at h
      split_ifs at h with h1 h2 h3
      · exact ihId ps e ps1 h
      · simp only [ParseNumberExpr, Option.some.injEq, Prod.mk.injEq] at h
        rw [← h.1]
        simp [opsRegistered]
      · exact ihPar ps e ps1 h
    · intro ps e ps1 h
      rw [ParseParenExpr] at h
      try dsimp only at h
      cases he : ParseExpression prec fuel (getNextToken ps) with
      | none => rw [he] at h; exact absurd h (by simp)
      | some v =>
        obtain ⟨w, ps2⟩ := v
        rw [he] at h
        try dsimp only at h
        split_ifs at h with h41
        simp only [Option.some.injEq, Prod.mk.injEq] at h
        rw [← h.1]
        exact ihE _ w ps2 he
    · intro ps e ps1 h
      rw [ParseIdentifierExpr] at h
      try dsimp only at h
      split_ifs at h with h40 h41
      · simp only [Option.some.injEq, Prod.mk.injEq] at h
        rw [← h.1]
        simp [opsRegistered]
      · simp only [Option.some.injEq, Prod.mk.injEq] at h
        rw [← h.1]
        simp [opsRegistered, opsRegisteredList]
      · cases hca : ParseCallArgs prec fuel [] (getNextToken (getNextToken ps)) with
        | none => rw [hca] at h; exact absurd h (by simp)
        | some v =>
          obtain ⟨args, ps3⟩ := v
          rw [hca] at h
          try dsimp only at h
          simp only [Option.some.injEq, Prod.mk.injEq] at h
          rw [← h.1]
          have := ihArgs [] _ args ps3 (by simp [opsRegisteredList]) hca
          simpa [opsRegistered] using this
    · intro acc ps r ps1 hacc h
      rw [ParseCallArgs] at h
      try dsimp only at h
      cases he : ParseExpression prec fuel ps with
      | none => rw [he] at h; exact absurd h (by simp)
      | some v =>
        obtain ⟨arg, psa⟩ := v
        rw [he] at h
        try dsimp only at h
        have harg := ihE ps arg psa he
        split_ifs at h with h41 h44
        · simp only [Option.some.injEq, Prod.mk.injEq] at h
          rw [← h.1, opsRegisteredList_append]
          simp [opsRegisteredList, hacc, harg]
        · refine ihArgs (acc ++ [arg]) (getNextToken psa) r ps1 ?_ h
          rw [opsRegisteredList_append]
          simp [opsRegisteredList, hacc, harg]
    · intro minP lhs ps e ps1 hmin hlhs h
      rw [ParseBinOpRHS] at h
      try dsimp only at h
      split_ifs at h with hlt
      · simp only [Option.some.injEq, Prod.mk.injEq] at h
        rw [← h.1]
        exact hlhs
      · have hop := GetTokenPrecedence_ge_cases hmin hlt
        have htok : minP ≤ GetTokenPrecedence prec ps.currToken := by omega
        cases hpp : ParsePrimary prec fuel (getNextToken ps) with
        | none => rw [hpp] at h; exact absurd h (by simp)
        | some v =>
          obtain ⟨rhs, ps2⟩ := v
          rw [hpp] at h
          try dsimp only at h
          have hrhs := ihP _ rhs ps2 hpp
          have hbinfold : opsRegistered prec
              (.BinaryExpr ps.currToken lhs rhs) = true := by
            simp [opsRegistered, hop.1, hop.2.1, hop.2.2, hlhs, hrhs]
          split_ifs at h with hnp
          · cases hbr : ParseBinOpRHS prec fuel
                (GetTokenPrecedence prec ps.currToken + 1) rhs ps2 with
            | none => rw [hbr] at h; exact absurd h (by simp)
            | some w =>
              obtain ⟨rhs2, ps3⟩ := w
              rw [hbr] at h
              try dsimp only at h
              have hrhs2 := ihBin _ rhs ps2 rhs2 ps3 (by omega) hrhs hbr
              refine ihBin minP _ ps3 e ps1 hmin ?_ h
              simp [opsRegistered, hop.1, hop.2.1, hop.2.2, hlhs, hrhs2]
          · exact ihBin minP _ ps2 e ps1 hmin hbinfold h

/-! ## Symbolic execution helpers for the parser -/

theorem getNextToken_eq (ps : ParserState) :
    getNextToken ps = ⟨(gettok ps.lex).2, (gettok ps.lex).1⟩ := rfl

/-- ParsePrimary on a number token: a NumberExpr from num_val, eating the
token. -/
theorem ParsePrimary_number {prec : Int → Int} {fuel : Nat} (ps : ParserState)
    (h : ps.currToken = tokenNumber) :
    ParsePrimary prec (fuel + 1) ps =
      some (.NumberExpr ps.lex.numVal, getNextToken ps) := by
  rw [ParsePrimary, if_neg (by rw [h]; decide), if_pos h]
  rfl

/-- A character the tokenizer passes through as a single-character token and
that isascii accepts: not whitespace, not alphabetic, not a digit, not a
dot, not a hash, and with code at most 127. -/
def plainOpChar (c : Char) : Prop :=
  isspaceI (c.toNat : Int) = false ∧ isalphaI (c.toNat : Int) = false ∧
    isdigitI (c.toNat : Int) = false ∧ (c.toNat : Int) ≠ 46 ∧
    (c.toNat : Int) ≠ 35 ∧ (c.toNat : Int) ≤ 127

instance (c : Char) : Decidable (plainOpChar c) := by
  unfold plainOpChar
  infer_instance

theorem ParseDefinition_body {prec : Int → Int} {fuel : Nat} {ps ps1 : ParserState}
    {f : FunctionAST} (h : ParseDefinition prec fuel ps = some (f, ps1)) :
    ∃ ps2 ps3, ParseExpression prec fuel ps2 = some (f.body, ps3) := by
  unfold ParseDefinition at h
  try dsimp only at h
  cases hp : ParsePrototype fuel (getNextToken ps) with
  | none => rw [hp] at h; exact absurd h (by simp)
  | some v =>
    obtain ⟨proto, ps2⟩ := v
    rw [hp] at h
    try dsimp only at h
    cases he : ParseExpression prec fuel ps2 with
    | none => rw [he] at h; exact absurd h (by simp)
    | some w =>
      obtain ⟨e, ps3⟩ := w
      rw [he] at h
      try dsimp only at h
      simp only [Option.some.injEq, Prod.mk.injEq] at h
      obtain ⟨h1, h2⟩ := h
      subst h1
      refine ⟨ps2, ps3, ?_⟩
      simpa using he

theorem ParseTopLevelExpr_body {prec : Int → Int} {fuel : Nat} {ps ps1 : ParserState}
    {f : FunctionAST} (h : ParseTopLevelExpr prec fuel ps = some (f, ps1)) :
    ∃ ps3, ParseExpression prec fuel ps = some (f.body, ps3) := by
  unfold ParseTopLevelExpr at h
  cases he : ParseExpression prec fuel ps with
  | none => rw [he] at h; exact absurd h (by simp)
  | some w =>
    obtain ⟨e, ps3⟩ := w
    rw [he] at h
    try dsimp only at h
    simp only [Option.some.injEq, Prod.mk.injEq] at h
    obtain ⟨h1, h2⟩ := h
    subst h1
    refine ⟨ps3, ?_⟩
    simpa using he

/-- Claim C5: in every expression tree returned by a successful parse, the
operator of every BinaryExpr node is an ascii character registered in the
precedence table with strictly positive precedence; likewise for the body
of every parsed definition and of every parsed top level expression. -/
theorem c5_binops_registered_positive (prec : Int → Int) (fuel : Nat)
    (ps : ParserState) :
    (∀ e, (ParseExpression prec fuel ps).map Prod.fst = some e →
      opsRegistered prec e = true) ∧
    (∀ f, (ParseDefinition prec fuel ps).map Prod.fst = some f →
      opsRegistered prec f.body = true) ∧
    (∀ f, (ParseTopLevelExpr prec fuel ps).map Prod.fst = some f →
      opsRegistered prec f.body = true) := by
  refine ⟨?_, ?_, ?_⟩
  · intro e h
    cases hx : ParseExpression prec fuel ps with
    | none => rw [hx] at h; exact absurd h (by simp)
    | some v =>
      obtain ⟨e', ps1⟩ := v
      rw [hx] at h
      simp only [Option.map_some', Option.some.injEq] at h
      exact h ▸ (parse_ops_invariant prec fuel).1 ps e' ps1 hx
  · intro f h
    cases hx : ParseDefinition prec fuel ps with
    | none => rw [hx] at h; exact absurd h (by simp)
    | some v =>
      obtain ⟨f', ps1⟩ := v
      rw [hx] at h
      simp only [Option.map_some', Option.some.injEq] at h
      obtain ⟨ps2, ps3, he⟩ := ParseDefinition_body hx
      exact h ▸ (parse_ops_invariant prec fuel).1 ps2 f'.body ps3 he
  · intro f h
    cases hx : ParseTopLevelExpr prec fuel ps with
    | none => rw [hx] at h; exact absurd h (by simp)
    | some v =>
      obtain ⟨f', ps1⟩ := v
      rw [hx] at h
      simp only [Option.map_some', Option.some.injEq] at h
      obtain ⟨ps3, he⟩ := ParseTopLevelExpr_body hx
      exact h ▸ (parse_ops_invariant prec fuel).1 ps f'.body ps3 he

/-- Witness for C5: the tree parsed from the stream 1+2*3 under the default
table, whose operators 43 and 42 are registered with precedence 200 and
300. -/
theorem c5_binops_registered_positive_witness :
    opsRegistered defaultPrec
      (.BinaryExpr 43 (.NumberExpr 1) (.BinaryExpr 42 (.NumberExpr 2) (.NumberExpr 3))) = true :=
  (c5_binops_registered_positive defaultPrec 20 (initParserState "1+2*3".toList)).1
    (.BinaryExpr 43 (.NumberExpr 1) (.BinaryExpr 42 (.NumberExpr 2) (.NumberExpr 3))) (by rfl)

/-- Claim C8: tokenization is deterministic.  Re-tokenizing the same fixed
character stream from a fresh cursor (last_char a space, as at program
start) yields the same observable token sequence as the first run, for
every input, every number of calls, and any residue the previous run left
in identifier_str and num_val: the sequence depends only on the stream. -/
theorem c8_retokenization_deterministic (n : Nat) (l : List Char)
    (id : String) (nv : Rat) :
    obsStream n ⟨l, 32, id, nv⟩ = obsStream n (initLexState l) :=
  obsStream_payload_indep n l 32 (by norm_num) id "" nv 0

/-- Witness for C8 on a concrete stream and concrete stale globals. -/
theorem c8_retokenization_deterministic_witness :
    obsStream 4 ⟨"x 1+2 #c".toList, 32, "stale", 7⟩ =
      obsStream 4 (initLexState "x 1+2 #c".toList) :=
  c8_retokenization_deterministic 4 "x 1+2 #c".toList "stale" 7

/-- Claim C9: an input consisting of a single dot character is tokenized as
a numeric literal token whose value is 0, because the dot starts the number
rule and strtod performs no conversion on the string consisting of one dot;
it is not emitted as a single-character operator token (the tag is
tokenNumber, not the character code 46). -/
theorem c9_lone_dot_is_number_zero :
    gettok (initLexState ['.']) = (tokenNumber, ⟨[], -1, "", 0⟩) ∧ tokenNumber ≠ 46 := by
  exact ⟨by decide, by decide⟩

/-- Claim C10: when a comment runs to end of input with no newline, the
gettok call returns the end-of-input token value itself (the comment branch
falls through to the character-return path with last_char equal to EOF, and
EOF is the token_eof value -1), and the payload globals are untouched. -/
theorem c10_comment_to_eof_returns_eof (body : List Char) (id : String) (nv : Rat)
    (h : ∀ c ∈ body, (c.toNat : Int) ≠ 10 ∧ (c.toNat : Int) ≠ 13) :
    gettok ⟨'#' :: body, 32, id, nv⟩ = (tokenEof, ⟨[], -1, id, nv⟩) := by
  apply gettok_inl
  unfold gettokStep
  dsimp only
  rw [skipSpaces_space_cons (by decide), show (('#'.toNat : Int)) = 35 from rfl,
    skipSpaces_not_space (by decide), skipComment_no_newline h]
  norm_num [isalphaI, isdigitI, tokenEof, getchar]

/-- Witness for C10 at a concrete comment body, with residue in the payload
globals to exhibit that they are preserved. -/
theorem c10_comment_to_eof_returns_eof_witness :
    gettok ⟨'#' :: " abc".toList, 32, "x", 5⟩ = (tokenEof, ⟨[], -1, "x", 5⟩) :=
  c10_comment_to_eof_returns_eof " abc".toList "x" 5 (by decide)

/-- Claim C4: parsing the input of an open paren, 1, plus, 2 with the
closing paren missing yields the failure value none at the expression level
and at the top level; no partial tree accompanies the failure. -/
theorem c4_missing_close_paren_fails_with_no_ast :
    ParseExpression defaultPrec 20 (initParserState "(1+2".toList) = none ∧
    ParseTopLevelExpr defaultPrec 20 (initParserState "(1+2".toList) = none :=
  ⟨rfl, rfl⟩

/-- Claim C6: ParsePrototype accepts consecutive identifier tokens with no
separators as parameter names, so the definition with parameters a b parses
to the Function with prototype foo and parameter list a, b and body the sum
of the two variables; a definition with zero parameters also parses.  The
operator field 43 is the code of the plus character. -/
theorem c6_prototype_params_no_separators :
    (ParseDefinition defaultPrec 20 (initParserState "def foo(a b) a+b".toList)).map Prod.fst =
      some ⟨⟨"foo", ["a", "b"]⟩, .BinaryExpr 43 (.VariableExpr "a") (.VariableExpr "b")⟩ ∧
    (ParseDefinition defaultPrec 20 (initParserState "def foo() 1".toList)).map Prod.fst =
      some ⟨⟨"foo", []⟩, .NumberExpr 1⟩ :=
  ⟨rfl, rfl⟩

/-- Claim C1: for any two binary operator characters registered in the
precedence table with the second binding strictly tighter than the first,
parsing 1 op1 2 op2 3 by ParseExpression groups the tighter operator
first: the result is op1 applied to 1 and to the subtree op2 of 2 and 3.
The table is the configuration the driver supplies; the fuel meters call
depth and any amount above the needed four levels gives the same parse. -/
theorem c1_tighter_precedence_binds_first (prec : Int → Int) (op1 op2 : Char) (f : Nat)
    (h1 : plainOpChar op1) (h2 : plainOpChar op2)
    (hp1 : 0 < prec (op1.toNat : Int))
    (hlt : prec (op1.toNat : Int) < prec (op2.toNat : Int)) :
    (ParseExpression prec (f + 4)
        (initParserState ('1' :: op1 :: '2' :: op2 :: '3' :: []))).map Prod.fst =
      some (.BinaryExpr (op1.toNat : Int) (.NumberExpr 1)
        (.BinaryExpr (op2.toNat : Int) (.NumberExpr 2) (.NumberExpr 3))) := by
  obtain ⟨hs1, ha1, hd1, hdot1, hh1, hascii1⟩ := h1
  obtain ⟨hs2, ha2, hd2, hdot2, hh2, hascii2⟩ := h2
  have hge1 : (0 : Int) ≤ (op1.toNat : Int) := Int.natCast_nonneg _
  have hge2 : (0 : Int) ≤ (op2.toNat : Int) := Int.natCast_nonneg _
  have hne1 : (op1.toNat : Int) ≠ -1 := by omega
  have hne2 : (op2.toNat : Int) ≠ -1 := by omega
  have hp2 : 0 < prec (op2.toNat : Int) := by omega
  have hsv1 : strtodModel [49] = 1 := by decide
  have hsv2 : strtodModel [50] = 2 := by decide
  have hsv3 : strtodModel [51] = 3 := by decide
  have hrn0 : readNum 49 (op1 :: '2' :: op2 :: '3' :: []) =
      ([49], (op1.toNat : Int), '2' :: op2 :: '3' :: []) := by
    rw [readNum, if_neg (by simp [hd1, hdot1])]
  have hrn2 : readNum 50 (op2 :: '3' :: []) = ([50], (op2.toNat : Int), ['3']) := by
    rw [readNum, if_neg (by simp [hd2, hdot2])]
  have hsp0 : skipSpaces 32 ('1' :: op1 :: '2' :: op2 :: '3' :: []) =
      (49, op1 :: '2' :: op2 :: '3' :: []) := by
    rw [skipSpaces_space_cons (by decide)]
    exact skipSpaces_not_space (by decide) _
  have hT0 : gettok ⟨'1' :: op1 :: '2' :: op2 :: '3' :: [], 32, "", 0⟩ =
      (tokenNumber, ⟨'2' :: op2 :: '3' :: [], (op1.toNat : Int), "", 1⟩) := by
    apply gettok_inl
    rw [gettokStep_of_num (s := ⟨'1' :: op1 :: '2' :: op2 :: '3' :: [], 32, "", 0⟩)
      hsp0 (by decide) (by decide), hrn0]
    dsimp only
    rw [hsv1]
  have hT1 : gettok ⟨'2' :: op2 :: '3' :: [], (op1.toNat : Int), "", 1⟩ =
      ((op1.toNat : Int), ⟨op2 :: '3' :: [], 50, "", 1⟩) := by
    apply gettok_inl
    rw [gettokStep_of_char (s := ⟨'2' :: op2 :: '3' :: [], (op1.toNat : Int), "", 1⟩)
      (skipSpaces_not_space hs1 _) ha1 hd1 hdot1 hh1 hne1]
    rfl
  have hsp2 : skipSpaces (50 : Int) (op2 :: '3' :: []) = (50, op2 :: '3' :: []) :=
    skipSpaces_not_space (by decide) _
  have hT2 : gettok ⟨op2 :: '3' :: [], 50, "", 1⟩ =
      (tokenNumber, ⟨['3'], (op2.toNat : Int), "", 2⟩) := by
    apply gettok_inl
    rw [gettokStep_of_num (s := ⟨op2 :: '3' :: [], 50, "", 1⟩)
      hsp2 (by decide) (by decide), hrn2]
    dsimp only
    rw [hsv2]
  have hT3 : gettok ⟨['3'], (op2.toNat : Int), "", 2⟩ =
      ((op2.toNat : Int), ⟨[], 51, "", 2⟩) := by
    apply gettok_inl
    rw [gettokStep_of_char (s := ⟨['3'], (op2.toNat : Int), "", 2⟩)
      (skipSpaces_not_space hs2 _) ha2 hd2 hdot2 hh2 hne2]
    rfl
  have hsp4 : skipSpaces (51 : Int) ([] : List Char) = (51, []) :=
    skipSpaces_not_space (by decide) _
  have hT4 : gettok ⟨[], 51, "", 2⟩ = (tokenNumber, ⟨[], -1, "", 3⟩) := by
    apply gettok_inl
    rw [gettokStep_of_num (s := ⟨[], 51, "", 2⟩) hsp4 (by decide) (by decide)]
    dsimp only [readNum]
    rw [hsv3]
  have hps0 : initParserState ('1' :: op1 :: '2' :: op2 :: '3' :: []) =
      ⟨⟨'2' :: op2 :: '3' :: [], (op1.toNat : Int), "", 1⟩, tokenNumber⟩ := by
    simp only [initParserState, initLexState, getNextToken_eq, hT0]
  have hgn1 : getNextToken ⟨⟨'2' :: op2 :: '3' :: [], (op1.toNat : Int), "", 1⟩, tokenNumber⟩ =
      ⟨⟨op2 :: '3' :: [], 50, "", 1⟩, (op1.toNat : Int)⟩ := by
    simp only [getNextToken_eq, hT1]
  have hgn2 : getNextToken ⟨⟨op2 :: '3' :: [], 50, "", 1⟩, (op1.toNat : Int)⟩ =
      ⟨⟨['3'], (op2.toNat : Int), "", 2⟩, tokenNumber⟩ := by
    simp only [getNextToken_eq, hT2]
  have hgn3 : getNextToken ⟨⟨['3'], (op2.toNat : Int), "", 2⟩, tokenNumber⟩ =
      ⟨⟨[], 51, "", 2⟩, (op2.toNat : Int)⟩ := by
    simp only [getNextToken_eq, hT3]
  have hgn4 : getNextToken ⟨⟨[], 51, "", 2⟩, (op2.toNat : Int)⟩ =
      ⟨⟨[], -1, "", 3⟩, tokenNumber⟩ := by
    simp only [getNextToken_eq, hT4]
  have hgn5 : getNextToken ⟨⟨[], -1, "", 3⟩, tokenNumber⟩ =
      ⟨⟨[], -1, "", 3⟩, tokenEof⟩ := by
    simp only [getNextToken_eq, gettok_eof_state]
  have hg1 : GetTokenPrecedence prec (op1.toNat : Int) = prec (op1.toNat : Int) :=
    GetTokenPrecedence_pos hge1 hascii1 hp1
  have hg2 : GetTokenPrecedence prec (op2.toNat : Int) = prec (op2.toNat : Int) :=
    GetTokenPrecedence_pos hge2 hascii2 hp2
  have hgeof : GetTokenPrecedence prec tokenEof = -1 := rfl
  have hPrimA : ParsePrimary prec (((f + 1) + 1) + 1)
      ⟨⟨'2' :: op2 :: '3' :: [], (op1.toNat : Int), "", 1⟩, tokenNumber⟩ =
      some (.NumberExpr 1, ⟨⟨op2 :: '3' :: [], 50, "", 1⟩, (op1.toNat : Int)⟩) := by
    rw [ParsePrimary_number _ rfl, hgn1]
  have hPrimB : ParsePrimary prec ((f + 1) + 1)
      ⟨⟨['3'], (op2.toNat : Int), "", 2⟩, tokenNumber⟩ =
      some (.NumberExpr 2, ⟨⟨[], 51, "", 2⟩, (op2.toNat : Int)⟩) := by
    rw [ParsePrimary_number _ rfl, hgn3]
  have hPrimC : ParsePrimary prec (f + 1) ⟨⟨[], -1, "", 3⟩, tokenNumber⟩ =
      some (.NumberExpr 3, ⟨⟨[], -1, "", 3⟩, tokenEof⟩) := by
    rw [ParsePrimary_number _ rfl, hgn5]
  have hBin3 : ParseBinOpRHS prec (f + 1) (prec (op1.toNat : Int) + 1)
      (.BinaryExpr (op2.toNat : Int) (.NumberExpr 2) (.NumberExpr 3))
      ⟨⟨[], -1, "", 3⟩, tokenEof⟩ =
      some (.BinaryExpr (op2.toNat : Int) (.NumberExpr 2) (.NumberExpr 3),
        ⟨⟨[], -1, "", 3⟩, tokenEof⟩) := by
    rw [ParseBinOpRHS]
    dsimp only
    rw [hgeof, if_pos (by omega)]
  have hBinEnd : ParseBinOpRHS prec ((f + 1) + 1) 0
      (.BinaryExpr (op1.toNat : Int) (.NumberExpr 1)
        (.BinaryExpr (op2.toNat : Int) (.NumberExpr 2) (.NumberExpr 3)))
      ⟨⟨[], -1, "", 3⟩, tokenEof⟩ =
      some (.BinaryExpr (op1.toNat : Int) (.NumberExpr 1)
        (.BinaryExpr (op2.toNat : Int) (.NumberExpr 2) (.NumberExpr 3)),
        ⟨⟨[], -1, "", 3⟩, tokenEof⟩) := by
    rw [ParseBinOpRHS]
    dsimp only
    rw [hgeof, if_pos (by norm_num)]
  have hBinInner : ParseBinOpRHS prec ((f + 1) + 1) (prec (op1.toNat : Int) + 1)
      (.NumberExpr 2) ⟨⟨[], 51, "", 2⟩, (op2.toNat : Int)⟩ =
      some (.BinaryExpr (op2.toNat : Int) (.NumberExpr 2) (.NumberExpr 3),
        ⟨⟨[], -1, "", 3⟩, tokenEof⟩) := by
    rw [ParseBinOpRHS]
    dsimp only
    rw [hg2, if_neg (by omega), hgn4, hPrimC]
    dsimp only
    rw [hgeof, if_neg (by omega), hBin3]
  have hBinTop : ParseBinOpRHS prec (((f + 1) + 1) + 1) 0 (.NumberExpr 1)
      ⟨⟨op2 :: '3' :: [], 50, "", 1⟩, (op1.toNat : Int)⟩ =
      some (.BinaryExpr (op1.toNat : Int) (.NumberExpr 1)
        (.BinaryExpr (op2.toNat : Int) (.NumberExpr 2) (.NumberExpr 3)),
        ⟨⟨[], -1, "", 3⟩, tokenEof⟩) := by
    rw [ParseBinOpRHS]
    dsimp only
    rw [hg1, if_neg (by omega), hgn2, hPrimB]
    dsimp only
    rw [hg2, if_pos hlt, hBinInner]
    dsimp only
    rw [hBinEnd]
  rw [show f + 4 = (((f + 1) + 1) + 1) + 1 from by omega, hps0, ParseExpression, hPrimA]
  dsimp only
  rw [hBinTop]
  rfl

/-- Witness for C1 with the default table: plus (code 43, precedence 200)
and star (code 42, precedence 300) on the stream 1+2*3. -/
theorem c1_tighter_precedence_binds_first_witness :
    (ParseExpression defaultPrec (16 + 4)
        (initParserState ('1' :: '+' :: '2' :: '*' :: '3' :: []))).map Prod.fst =
      some (.BinaryExpr ('+'.toNat : Int) (.NumberExpr 1)
        (.BinaryExpr ('*'.toNat : Int) (.NumberExpr 2) (.NumberExpr 3))) :=
  c1_tighter_precedence_binds_first defaultPrec '+' '*' 16
    (by decide) (by decide) (by decide) (by decide)

/-- Claim C2: for any binary operator character registered in the
precedence table, a chain of that operator at equal precedence is grouped
left-associatively by ParseExpression: 1 op 2 op 3 parses to op applied to
the subtree op of 1 and 2, and to 3. -/
theorem c2_equal_precedence_left_associative (prec : Int → Int) (op : Char) (f : Nat)
    (h1 : plainOpChar op) (hp : 0 < prec (op.toNat : Int)) :
    (ParseExpression prec (f + 4)
        (initParserState ('1' :: op :: '2' :: op :: '3' :: []))).map Prod.fst =
      some (.BinaryExpr (op.toNat : Int)
        (.BinaryExpr (op.toNat : Int) (.NumberExpr 1) (.NumberExpr 2))
        (.NumberExpr 3)) := by
  obtain ⟨hs1, ha1, hd1, hdot1, hh1, hascii1⟩ := h1
  have hge1 : (0 : Int) ≤ (op.toNat : Int) := Int.natCast_nonneg _
  have hne1 : (op.toNat : Int) ≠ -1 := by omega
  have hsv1 : strtodModel [49] = 1 := by decide
  have hsv2 : strtodModel [50] = 2 := by decide
  have hsv3 : strtodModel [51] = 3 := by decide
  have hrn0 : readNum 49 (op :: '2' :: op :: '3' :: []) =
      ([49], (op.toNat : Int), '2' :: op :: '3' :: []) := by
    rw [readNum, if_neg (by simp [hd1, hdot1])]
  have hrn2 : readNum 50 (op :: '3' :: []) = ([50], (op.toNat : Int), ['3']) := by
    rw [readNum, if_neg (by simp [hd1, hdot1])]
  have hsp0 : skipSpaces 32 ('1' :: op :: '2' :: op :: '3' :: []) =
      (49, op :: '2' :: op :: '3' :: []) := by
    rw [skipSpaces_space_cons (by decide)]
    exact skipSpaces_not_space (by decide) _
  have hT0 : gettok ⟨'1' :: op :: '2' :: op :: '3' :: [], 32, "", 0⟩ =
      (tokenNumber, ⟨'2' :: op :: '3' :: [], (op.toNat : Int), "", 1⟩) := by
    apply gettok_inl
    rw [gettokStep_of_num (s := ⟨'1' :: op :: '2' :: op :: '3' :: [], 32, "", 0⟩)
      hsp0 (by decide) (by decide), hrn0]
    dsimp only
    rw [hsv1]
  have hT1 : gettok ⟨'2' :: op :: '3' :: [], (op.toNat : Int), "", 1⟩ =
      ((op.toNat : Int), ⟨op :: '3' :: [], 50, "", 1⟩) := by
    apply gettok_inl
    rw [gettokStep_of_char (s := ⟨'2' :: op :: '3' :: [], (op.toNat : Int), "", 1⟩)
      (skipSpaces_not_space hs1 _) ha1 hd1 hdot1 hh1 hne1]
    rfl
  have hsp2 : skipSpaces (50 : Int) (op :: '3' :: []) = (50, op :: '3' :: []) :=
    skipSpaces_not_space (by decide) _
  have hT2 : gettok ⟨op :: '3' :: [], 50, "", 1⟩ =
      (tokenNumber, ⟨['3'], (op.toNat : Int), "", 2⟩) := by
    apply gettok_inl
    rw [gettokStep_of_num (s := ⟨op :: '3' :: [], 50, "", 1⟩)
      hsp2 (by decide) (by decide), hrn2]
    dsimp only
    rw [hsv2]
  have hT3 : gettok ⟨['3'], (op.toNat : Int), "", 2⟩ =
      ((op.toNat : Int), ⟨[], 51, "", 2⟩) := by
    apply gettok_inl
    rw [gettokStep_of_char (s := ⟨['3'], (op.toNat : Int), "", 2⟩)
      (skipSpaces_not_space hs1 _) ha1 hd1 hdot1 hh1 hne1]
    rfl
  have hsp4 : skipSpaces (51 : Int) ([] : List Char) = (51, []) :=
    skipSpaces_not_space (by decide) _
  have hT4 : gettok ⟨[], 51, "", 2⟩ = (tokenNumber, ⟨[], -1, "", 3⟩) := by
    apply gettok_inl
    rw [gettokStep_of_num (s := ⟨[], 51, "", 2⟩) hsp4 (by decide) (by decide)]
    dsimp only [readNum]
    rw [hsv3]
  have hps0 : initParserState ('1' :: op :: '2' :: op :: '3' :: []) =
      ⟨⟨'2' :: op :: '3' :: [], (op.toNat : Int), "", 1⟩, tokenNumber⟩ := by
    simp only [initParserState, initLexState, getNextToken_eq, hT0]
  have hgn1 : getNextToken ⟨⟨'2' :: op :: '3' :: [], (op.toNat : Int), "", 1⟩, tokenNumber⟩ =
      ⟨⟨op :: '3' :: [], 50, "", 1⟩, (op.toNat : Int)⟩ := by
    simp only [getNextToken_eq, hT1]
  have hgn2 : getNextToken ⟨⟨op :: '3' :: [], 50, "", 1⟩, (op.toNat : Int)⟩ =
      ⟨⟨['3'], (op.toNat : Int), "", 2⟩, tokenNumber⟩ := by
    simp only [getNextToken_eq, hT2]
  have hgn3 : getNextToken ⟨⟨['3'], (op.toNat : Int), "", 2⟩, tokenNumber⟩ =
      ⟨⟨[], 51, "", 2⟩, (op.toNat : Int)⟩ := by
    simp only [getNextToken_eq, hT3]
  have hgn4 : getNextToken ⟨⟨[], 51, "", 2⟩, (op.toNat : Int)⟩ =
      ⟨⟨[], -1, "", 3⟩, tokenNumber⟩ := by
    simp only [getNextToken_eq, hT4]
  have hgn5 : getNextToken ⟨⟨[], -1, "", 3⟩, tokenNumber⟩ =
      ⟨⟨[], -1, "", 3⟩, tokenEof⟩ := by
    simp only [getNextToken_eq, gettok_eof_state]
  have hg : GetTokenPrecedence prec (op.toNat : Int) = prec (op.toNat : Int) :=
    GetTokenPrecedence_pos hge1 hascii1 hp
  have hgeof : GetTokenPrecedence prec tokenEof = -1 := rfl
  have hPrimA : ParsePrimary prec (((f + 1) + 1) + 1)
      ⟨⟨'2' :: op :: '3' :: [], (op.toNat : Int), "", 1⟩, tokenNumber⟩ =
      some (.NumberExpr 1, ⟨⟨op :: '3' :: [], 50, "", 1⟩, (op.toNat : Int)⟩) := by
    rw [ParsePrimary_number _ rfl, hgn1]
  have hPrimB : ParsePrimary prec ((f + 1) + 1)
      ⟨⟨['3'], (op.toNat : Int), "", 2⟩, tokenNumber⟩ =
      some (.NumberExpr 2, ⟨⟨[], 51, "", 2⟩, (op.toNat : Int)⟩) := by
    rw [ParsePrimary_number _ rfl, hgn3]
  have hPrimC : ParsePrimary prec (f + 1) ⟨⟨[], -1, "", 3⟩, tokenNumber⟩ =
      some (.NumberExpr 3, ⟨⟨[], -1, "", 3⟩, tokenEof⟩) := by
    rw [ParsePrimary_number _ rfl, hgn5]
  have hBinLast : ParseBinOpRHS prec (f + 1) 0
      (.BinaryExpr (op.toNat : Int)
        (.BinaryExpr (op.toNat : Int) (.NumberExpr 1) (.NumberExpr 2))
        (.NumberExpr 3))
      ⟨⟨[], -1, "", 3⟩, tokenEof⟩ =
      some (.BinaryExpr (op.toNat : Int)
        (.BinaryExpr (op.toNat : Int) (.NumberExpr 1) (.NumberExpr 2))
        (.NumberExpr 3), ⟨⟨[], -1, "", 3⟩, tokenEof⟩) := by
    rw [ParseBinOpRHS]
    dsimp only
    rw [hgeof, if_pos (by norm_num)]
  have hBinIter2 : ParseBinOpRHS prec ((f + 1) + 1) 0
      (.BinaryExpr (op.toNat : Int) (.NumberExpr 1) (.NumberExpr 2))
      ⟨⟨[], 51, "", 2⟩, (op.toNat : Int)⟩ =
      some (.BinaryExpr (op.toNat : Int)
        (.BinaryExpr (op.toNat : Int) (.NumberExpr 1) (.NumberExpr 2))
        (.NumberExpr 3), ⟨⟨[], -1, "", 3⟩, tokenEof⟩) := by
    rw [ParseBinOpRHS]
    dsimp only
    rw [hg, if_neg (by omega), hgn4, hPrimC]
    dsimp only
    rw [hgeof, if_neg (by omega), hBinLast]
  have hBinTop : ParseBinOpRHS prec (((f + 1) + 1) + 1) 0 (.NumberExpr 1)
      ⟨⟨op :: '3' :: [], 50, "", 1⟩, (op.toNat : Int)⟩ =
      some (.BinaryExpr (op.toNat : Int)
        (.BinaryExpr (op.toNat : Int) (.NumberExpr 1) (.NumberExpr 2))
        (.NumberExpr 3), ⟨⟨[], -1, "", 3⟩, tokenEof⟩) := by
    rw [ParseBinOpRHS]
    dsimp only
    rw [hg, if_neg (by omega), hgn2, hPrimB]
    dsimp only
    rw [hg, if_neg (by omega), hBinIter2]
  rw [show f + 4 = (((f + 1) + 1) + 1) + 1 from by omega, hps0, ParseExpression, hPrimA]
  dsimp only
  rw [hBinTop]
  rfl

/-- Witness for C2 with the default table: minus (code 45, precedence 200)
on the stream 1-2-3. -/
theorem c2_equal_precedence_left_associative_witness :
    (ParseExpression defaultPrec (16 + 4)
        (initParserState ('1' :: '-' :: '2' :: '-' :: '3' :: []))).map Prod.fst =
      some (.BinaryExpr ('-'.toNat : Int)
        (.BinaryExpr ('-'.toNat : Int) (.NumberExpr 1) (.NumberExpr 2))
        (.NumberExpr 3)) :=
  c2_equal_precedence_left_associative defaultPrec '-' 16 (by decide) (by decide)

/-- Claim C3: ParseParenExpr consumes the open paren (40), parses an
expression, requires and consumes the close paren (41), and returns the
inner expression itself, never a wrapping node; consequently the stream
with 1+2 in parentheses times 3 parses to star (42) applied to the plus
(43) subtree and 3, with no node for the parentheses. -/
theorem c3_paren_unwraps_inner_expression :
    (∀ (prec : Int → Int) (fuel : Nat) (ps : ParserState) (e : ExprAST) (ps1 : ParserState),
      ps.currToken = 40 →
      ParseExpression prec fuel (getNextToken ps) = some (e, ps1) →
      ps1.currToken = 41 →
      ParseParenExpr prec (fuel + 1) ps = some (e, getNextToken ps1)) ∧
    (ParseExpression defaultPrec 20 (initParserState "(1+2)*3".toList)).map Prod.fst =
      some (.BinaryExpr 42 (.BinaryExpr 43 (.NumberExpr 1) (.NumberExpr 2))
        (.NumberExpr 3)) := by
  constructor
  · intro prec fuel ps e ps1 h40 hexpr h41
    rw [ParseParenExpr]
    try dsimp only
    rw [hexpr]
    try dsimp only
    rw [if_neg (by simp [h41])]
  · rfl

/-- Witness for C3: instantiating the unwrap property on the concrete
stream of 1 in parentheses, whose inner parse is the bare NumberExpr 1. -/
theorem c3_paren_unwraps_inner_expression_witness :
    ParseParenExpr defaultPrec (19 + 1) (initParserState "(1)".toList) =
      some (.NumberExpr 1, getNextToken ⟨⟨[], -1, "", 1⟩, 41⟩) :=
  c3_paren_unwraps_inner_expression.1 defaultPrec 19 (initParserState "(1)".toList)
    (.NumberExpr 1) ⟨⟨[], -1, "", 1⟩, 41⟩ rfl rfl rfl

end MainCpp
